import Mathlib

/-!
Verification of the text-command interpreter and live-event pipeline of the
eliza-starter repository.  The definitions below are shallow embeddings of the
functions in `src/chat/index.ts` (intent extraction, quantity extraction,
explicit-command parsing, grove-plan expansion, the `handleUserInput`
dispatcher) and of the relevant server handlers in `src/index.ts` (the
deku-nut POST handler, the preferences POST handler, the tree generation
fallback, the stimulus-scheduler tick).  JavaScript regular expressions are
embedded as explicit scanners over `List Char`; JavaScript `search` returning
`-1` on failure is modelled by an `Int`-valued search.
-/

namespace Eliza

/-- The apostrophe character, code 39 (used by the negation word list). -/
def apoCh : Char := Char.ofNat 39

/-- Opening curly brace, code 123. -/
def lbrace : Char := Char.ofNat 123

/-- Closing curly brace, code 125. -/
def rbrace : Char := Char.ofNat 125

/-- JavaScript `\s` (the whitespace characters that occur in practice:
space, tab, newline, carriage return, vertical tab, form feed, NBSP). -/
def isJsSpace (c : Char) : Bool :=
  c = ' ' || c = '\t' || c = '\n' || c = '\r' ||
  c = Char.ofNat 11 || c = Char.ofNat 12 || c = Char.ofNat 160

/-- JavaScript `\w`: ASCII letters, digits and underscore. -/
def isWordCh (c : Char) : Bool :=
  c.isAlphanum || c = '_'

/-- ASCII lowercasing of one character (`String.prototype.toLowerCase` on the
ASCII range used by the matchers). -/
def lowerChar (c : Char) : Char :=
  if 'A' ≤ c && c ≤ 'Z' then Char.ofNat (c.toNat + 32) else c

/-- ASCII lowercasing of a character list. -/
def lowerChars (cs : List Char) : List Char := cs.map lowerChar

/-- ASCII uppercasing of one character (`String.prototype.toUpperCase` on the
ASCII range used by the action comparison). -/
def upperChar (c : Char) : Char :=
  if 'a' ≤ c && c ≤ 'z' then Char.ofNat (c.toNat - 32) else c

/-- ASCII uppercasing of a character list. -/
def upperChars (cs : List Char) : List Char := cs.map upperChar

/-- Match a literal word at the head of the input, returning the rest. -/
def lit : List Char → List Char → Option (List Char)
  | [], cs => some cs
  | _ :: _, [] => none
  | p :: ps, c :: cs => if c = p then lit ps cs else none

/-- Ordered alternation of literal words (regex `(w1|w2|...)`). -/
def altLit : List (List Char) → List Char → Option (List Char)
  | [], _ => none
  | w :: ws, cs =>
    match lit w cs with
    | some r => some r
    | none => altLit ws cs

/-- Regex `\s+`: at least one whitespace character, consumed greedily. -/
def ws1 : List Char → Option (List Char)
  | [] => none
  | c :: cs => if isJsSpace c then some (cs.dropWhile isJsSpace) else none

/-- Regex `\s*`: any run of whitespace, consumed greedily. -/
def wsStar (cs : List Char) : List Char := cs.dropWhile isJsSpace

/-- Regex `\b` after a word character: the next character, if any, is not a
word character. -/
def boundary : List Char → Bool
  | [] => true
  | c :: _ => !(isWordCh c)

/-- Regex `\b` before a word character: the previous character, if any, is
not a word character. -/
def boundaryBefore : Option Char → Bool
  | none => true
  | some c => !(isWordCh c)

/-- Leftmost-match scanner: index of the first position (with the preceding
character passed along for `\b` tests) at which `p` matches. -/
def searchAuxB (p : Option Char → List Char → Bool) :
    Option Char → List Char → Option Nat
  | prev, [] => if p prev [] then some 0 else none
  | prev, c :: cs =>
    if p prev (c :: cs) then some 0
    else (searchAuxB p (some c) cs).map (· + 1)

/-- JavaScript `RegExp.prototype.test`. -/
def testB (p : Option Char → List Char → Bool) (cs : List Char) : Bool :=
  (searchAuxB p none cs).isSome

/-- JavaScript `String.prototype.search`: first match index, `-1` if none. -/
def jsSearch (p : Option Char → List Char → Bool) (cs : List Char) : Int :=
  match searchAuxB p none cs with
  | some n => (n : Int)
  | none => -1

/-- Leftmost-match scanner returning the payload of the first match
(JavaScript `String.prototype.match` without the `g` flag). -/
def scanFirst {α : Type} (p : Option Char → List Char → Option α) :
    Option Char → List Char → Option α
  | prev, [] => p prev []
  | prev, c :: cs =>
    match p prev (c :: cs) with
    | some a => some a
    | none => scanFirst p (some c) cs

/-- The five creation verbs shared by the deku matcher and the negation
pattern: `make|create|generate|produce|spawn`. -/
def verbs5W : List (List Char) :=
  ["make".data, "create".data, "generate".data, "produce".data, "spawn".data]

/-- The ten creation verbs of the tree matcher:
`make|create|generate|produce|spawn|plant|grow|seed|sprout|raise`. -/
def verbs10W : List (List Char) :=
  ["make".data, "create".data, "generate".data, "produce".data, "spawn".data,
   "plant".data, "grow".data, "seed".data, "sprout".data, "raise".data]

/-- The negation words `don't|do not|never|no`. -/
def negWordsW : List (List Char) :=
  [['d', 'o', 'n', apoCh, 't'], "do not".data, "never".data, "no".data]

/-- One position of the negation pattern
`(don't|do not|never|no)\s+(make|create|generate|produce|spawn)\b`. -/
def negAt (cs : List Char) : Bool :=
  match altLit negWordsW cs with
  | none => false
  | some r1 =>
    match ws1 r1 with
    | none => false
    | some r2 =>
      match altLit verbs5W r2 with
      | none => false
      | some r3 => boundary r3

/-- `negation.test(t)`: the negation pattern occurs anywhere in the text. -/
def negationPresent (t : List Char) : Bool :=
  testB (fun _ cs => negAt cs) t

/-- Regex `(a\s+)?`: an optional article `a` followed by whitespace.  The
following alternatives (`tree|sapling|deku|teku`) never start with `a`, so
consuming the article whenever it is present is exact. -/
def articleOpt : List Char → List Char
  | 'a' :: c :: cs => if isJsSpace c then cs.dropWhile isJsSpace else 'a' :: c :: cs
  | cs => cs

/-- One position of a verb-noun pattern `(verbs)\s+(a\s+)?(nouns)\b`. -/
def nounAt (verbs nouns : List (List Char)) (cs : List Char) : Bool :=
  match altLit verbs cs with
  | none => false
  | some r1 =>
    match ws1 r1 with
    | none => false
    | some r2 =>
      match altLit nouns (articleOpt r2) with
      | none => false
      | some r3 => boundary r3

/-- One position of the tree verb-noun pattern of `wantsTree`. -/
def treeNounAt (cs : List Char) : Bool :=
  nounAt verbs10W ["tree".data, "sapling".data] cs

/-- One position of the deku verb-noun pattern of `wantsDeku`. -/
def dekuNounAt (cs : List Char) : Bool :=
  nounAt verbs5W ["deku".data, "teku".data] cs

/-- Regex `^tree\b` (anchored, so tested only at position 0). -/
def treeStart (t : List Char) : Bool :=
  match lit ("tree".data) t with
  | some r => boundary r
  | none => false

/-- One position of `\bplant\s+(a\s+)?sapling\b`. -/
def plantSaplingAt (prev : Option Char) (cs : List Char) : Bool :=
  boundaryBefore prev &&
    (match lit ("plant".data) cs with
     | none => false
     | some r1 =>
       match ws1 r1 with
       | none => false
       | some r2 =>
         match lit ("sapling".data) (articleOpt r2) with
         | none => false
         | some r3 => boundary r3)

/-- One position of `\bdeku\b`. -/
def dekuWordAt (prev : Option Char) (cs : List Char) : Bool :=
  boundaryBefore prev &&
    (match lit ("deku".data) cs with
     | none => false
     | some r => boundary r)

/-- One position of the chain-resolution keyword regex `tree|sapling`. -/
def treeKeyAt (cs : List Char) : Bool :=
  (lit ("tree".data) cs).isSome || (lit ("sapling".data) cs).isSome

/-- Body of `wantsTree` on an already-lowercased character list. -/
def wantsTreeL (t : List Char) : Bool :=
  if negationPresent t then false
  else
    testB (fun _ cs => treeNounAt cs) t || treeStart t || testB plantSaplingAt t

/-- Embedding of `wantsTree(text)` from `src/chat/index.ts`. -/
def wantsTree (s : String) : Bool := wantsTreeL (lowerChars s.data)

/-- Body of `wantsDeku` on an already-lowercased character list. -/
def wantsDekuL (t : List Char) : Bool :=
  if negationPresent t then false
  else testB (fun _ cs => dekuNounAt cs) t || testB dekuWordAt t

/-- Embedding of `wantsDeku(text)` from `src/chat/index.ts`. -/
def wantsDeku (s : String) : Bool := wantsDekuL (lowerChars s.data)

/-- Value of `parseInt` on a list of ASCII digits. -/
def digitsToNat (ds : List Char) : Nat :=
  ds.foldl (fun a c => a * 10 + (c.toNat - 48)) 0

/-- Regex `(\d{1,3})` followed by a non-digit: the maximal digit run, which
must have length 1 to 3 (backtracking into a shorter run always fails because
the next pattern character is whitespace). -/
def digits1to3 (cs : List Char) : Option (Nat × List Char) :=
  let ds := cs.takeWhile Char.isDigit
  if 1 ≤ ds.length ∧ ds.length ≤ 3 then
    some (digitsToNat ds, cs.dropWhile Char.isDigit)
  else none

/-- One position of a counted pattern `(verbs)\s+(\d{1,3})\s+(nouns)\b`,
returning the parsed count. -/
def countedAt (verbs nouns : List (List Char)) (cs : List Char) : Option Nat :=
  match altLit verbs cs with
  | none => none
  | some r1 =>
    match ws1 r1 with
    | none => none
    | some r2 =>
      match digits1to3 r2 with
      | none => none
      | some (n, r3) =>
        match ws1 r3 with
        | none => none
        | some r4 =>
          match altLit nouns r4 with
          | none => none
          | some r5 => if boundary r5 then some n else none

/-- Embedding of `countTrees(text)` from `src/chat/index.ts`: first match of
`(make|...|raise)\s+(\d{1,3})\s+(trees|saplings)\b`, guarded to 1..100,
defaulting to 1. -/
def countTrees (s : String) : Nat :=
  match scanFirst
      (fun _ cs => countedAt verbs10W ["trees".data, "saplings".data] cs)
      none (lowerChars s.data) with
  | some n => if 0 < n ∧ n ≤ 100 then n else 1
  | none => 1

/-- The tail `deku\s+nuts?\b` of the counted deku pattern. -/
def dekuNutsTailAt (cs : List Char) : Bool :=
  match lit ("deku".data) cs with
  | none => false
  | some r1 =>
    match ws1 r1 with
    | none => false
    | some r2 =>
      match lit ("nut".data) r2 with
      | none => false
      | some r3 =>
        match r3 with
        | 's' :: r4 => boundary r4
        | _ => boundary r3

/-- One position of `(make|create|generate|produce|spawn)\s+(\d{1,3})\s+deku\s+nuts?\b`. -/
def countedDekuAt (cs : List Char) : Option Nat :=
  match altLit verbs5W cs with
  | none => none
  | some r1 =>
    match ws1 r1 with
    | none => none
    | some r2 =>
      match digits1to3 r2 with
      | none => none
      | some (n, r3) =>
        match ws1 r3 with
        | none => none
        | some r4 => if dekuNutsTailAt r4 then some n else none

/-- Embedding of `countDeku(text)` from `src/chat/index.ts`. -/
def countDeku (s : String) : Nat :=
  match scanFirst (fun _ cs => countedDekuAt cs) none (lowerChars s.data) with
  | some n => if 0 < n ∧ n ≤ 100 then n else 1
  | none => 1

/-- JavaScript `String.prototype.trim`. -/
def trimChars (cs : List Char) : List Char :=
  ((cs.dropWhile isJsSpace).reverse.dropWhile isJsSpace).reverse

/-- Embedding of `text.split(/\n+/)`, except that runs of newlines produce intervening
empty pieces here; empty pieces never parse as commands, so the difference is
inert. -/
def splitOnNl : List Char → List (List Char)
  | [] => [[]]
  | c :: cs =>
    if c = '\n' then [] :: splitOnNl cs
    else
      match splitOnNl cs with
      | [] => [[c]]
      | h :: t => (c :: h) :: t

/-- The kind of an explicit command: `TREE` or `DEKU`. -/
inductive CmdKind where
  | tree
  | deku
deriving DecidableEq

/-- One parsed explicit command line (`findExplicitCommands` element):
kind, optional lowercased action after the dot, optional raw JSON payload
text. -/
structure ExplicitCmd where
  kind : CmdKind
  action : Option String
  payload : Option String
deriving DecidableEq

/-- Characters of the action part `[A-Z_]+` of a command line, after
lowercasing. -/
def isActionCh (c : Char) : Bool :=
  ('a' ≤ c && c ≤ 'z') || c = '_'

/-- Trailing part `\s*(\{[\s\S]*\})?$` of a command line: either nothing, or
a brace-wrapped payload reaching to the end of the line.  `orig` is the
trimmed original-case line, used to slice the payload with its case intact. -/
def finishLine (orig : List Char) (kind : CmdKind) (action : Option String)
    (rest : List Char) : Option ExplicitCmd :=
  let r := wsStar rest
  if r.isEmpty then some ⟨kind, action, none⟩
  else if r.head? = some lbrace ∧ r.getLast? = some rbrace then
    some ⟨kind, action, some (String.mk (orig.drop (orig.length - r.length)))⟩
  else none

/-- One line of `findExplicitCommands`: the trimmed line matched against
`^command\s*:\s*(tree(?:\.[A-Z_]+)?|deku(?:\.[A-Z_]+)?)\b\s*(\{[\s\S]*\})?$`
case-insensitively. -/
def parseCommandLine (line : List Char) : Option ExplicitCmd :=
  let orig := trimChars line
  let low := lowerChars orig
  match lit ("command".data) low with
  | none => none
  | some r1 =>
    match wsStar r1 with
    | ':' :: r2 =>
      let r3 := wsStar r2
      match altLit ["tree".data, "deku".data] r3 with
      | none => none
      | some r4 =>
        let kind := if (lit ("tree".data) r3).isSome then CmdKind.tree else CmdKind.deku
        match r4 with
        | '.' :: r5 =>
          let act := r5.takeWhile isActionCh
          if act.isEmpty then none
          else
            let r6 := r5.drop act.length
            if boundary r6 then finishLine orig kind (some (String.mk act)) r6
            else none
        | _ => if boundary r4 then finishLine orig kind none r4 else none
    | _ => none

/-- Embedding of `findExplicitCommands(text)` from `src/chat/index.ts`. -/
def findExplicitCommands (s : String) : List ExplicitCmd :=
  (splitOnNl s.data).filterMap parseCommandLine

/-- A grove/forest plan object, with the fields read by `expandGrovePlan`.
A missing or invalidly-typed field is `none`. -/
structure GrovePlan where
  tree_types : Option (List String) := none
  species : Option String := none
  count : Option Int := none
  total : Option Int := none
  per_type : Option Int := none
  companions : Option String := none
  location : Option String := none
  placement : Option String := none

/-- One seed payload produced by grove expansion. -/
structure Seed where
  species : String
  placement : Option String
  companions : Option String
deriving DecidableEq

/-- Value `types` in `expandGrovePlan`: the `tree_types` array if present, else a
singleton of `species` when truthy, else empty. -/
def typesOf (plan : GrovePlan) : List String :=
  match plan.tree_types with
  | some l => l
  | none =>
    match plan.species with
    | some s => if s = "" then [] else [s]
    | none => []

/-- Value `typesSafe` in `expandGrovePlan`. -/
def typesSafeOf (plan : GrovePlan) : List String :=
  if (typesOf plan).isEmpty then ["mystic"] else typesOf plan

/-- Value `Number(plan.count ?? plan.total ?? 0)`. -/
def effTotal (plan : GrovePlan) : Int :=
  (plan.count <|> plan.total).getD 0

/-- Value `Number(plan.per_type ?? 0)`. -/
def effPerType (plan : GrovePlan) : Int :=
  (plan.per_type).getD 0

/-- The seed pushed for one type in `expandGrovePlan`. -/
def mkSeed (plan : GrovePlan) (t : String) : Seed :=
  { species := t
    placement := plan.location <|> plan.placement
    companions := plan.companions }

/-- Embedding of `expandGrovePlan(plan)` from `src/chat/index.ts` (for an object plan; the
pipeline always calls it with `cmd.payload || {}`). -/
def expandGrovePlan (plan : GrovePlan) : List Seed :=
  let typesSafe := typesSafeOf plan
  if 0 < effPerType plan then
    typesSafe.flatMap fun t =>
      List.replicate (effPerType plan).toNat (mkSeed plan t)
  else if 0 < effTotal plan then
    (List.range (effTotal plan).toNat).map fun i =>
      mkSeed plan (typesSafe.getD (i % typesSafe.length) "mystic")
  else
    let seeds := typesSafe.map (mkSeed plan)
    if (typesOf plan).isEmpty then seeds.take 1 else seeds

/-- The number of seeds the spec's branch description predicts for a plan:
`per_type` seeds per listed type, else `count`/`total` seeds, else one per
listed type (a single default seed when no types were given). -/
def grovePlanLen (plan : GrovePlan) : Nat :=
  if 0 < effPerType plan then (typesSafeOf plan).length * (effPerType plan).toNat
  else if 0 < effTotal plan then (effTotal plan).toNat
  else if (typesOf plan).isEmpty then 1
  else (typesOf plan).length

/-- One observable action of `handleUserInput`: an explicit tree or deku
execution, a natural-language tree or deku creation (with `[index/total]`
metadata when the source attaches it), a local `tree`/`deku` hook execution,
forwarding to the agent, or process exit. -/
inductive Act where
  | exitCmd
  | exTree (action : Option String) (index total : Option Nat)
  | exDeku
  | nlTree (index total : Option Nat)
  | nlDeku (index total : Option Nat)
  | localTree
  | localDeku
  | forwardLLM
deriving DecidableEq

/-- Plan `cmd.payload || {}` fed through best-effort JSON parsing; `decode` is the
JSON-to-plan oracle (parse failure is `none`, degrading to `{}`). -/
def decodeOr (decode : String → Option GrovePlan) : Option String → GrovePlan
  | none => {}
  | some p => (decode p).getD {}

/-- Execution of one explicit command by `handleUserInput`. -/
def execExplicit (decode : String → Option GrovePlan) (cmd : ExplicitCmd) :
    List Act :=
  match cmd.kind with
  | .deku => [.exDeku]
  | .tree =>
    let actU := String.mk (upperChars ((cmd.action.getD ("")).data))
    if actU = "GROW_GROVE" ∨ actU = "GROW_FOREST" then
      let seeds := expandGrovePlan (decodeOr decode cmd.payload)
      (List.range seeds.length).map fun i =>
        .exTree cmd.action (some (i + 1)) (some seeds.length)
    else [.exTree cmd.action none none]

/-- The counted natural-language tree batch: `countTrees` creations with
1-based `index` and `total` metadata. -/
def treeBatch (s : String) : List Act :=
  (List.range (countTrees s)).map fun i =>
    .nlTree (some (i + 1)) (some (countTrees s))

/-- The counted natural-language deku batch. -/
def dekuBatch (s : String) : List Act :=
  (List.range (countDeku s)).map fun i =>
    .nlDeku (some (i + 1)) (some (countDeku s))

/-- Index `lower.search(/tree|sapling/)`. -/
def treeKeyIdx (s : String) : Int :=
  jsSearch (fun _ cs => treeKeyAt cs) (lowerChars s.data)

/-- Index `lower.search(/\bdeku\b/)`. -/
def dekuKeyIdx (s : String) : Int :=
  jsSearch dekuWordAt (lowerChars s.data)

/-- The local hook `^tree(?:\s+(\{[\s\S]*\}))?$` on the trimmed input. -/
def treeHookMatch (s : String) : Bool :=
  let l := lowerChars (trimChars s.data)
  match lit ("tree".data) l with
  | none => false
  | some [] => true
  | some r =>
    match ws1 r with
    | none => false
    | some r2 =>
      decide (r2 ≠ [] ∧ r2.head? = some lbrace ∧ r2.getLast? = some rbrace)

/-- The local hook `^deku(?:\s+(\d+(?:\.\d+)?))?$` on the trimmed input. -/
def dekuHookMatch (s : String) : Bool :=
  let l := lowerChars (trimChars s.data)
  match lit ("deku".data) l with
  | none => false
  | some [] => true
  | some r =>
    match ws1 r with
    | none => false
    | some r2 =>
      let ds := r2.takeWhile Char.isDigit
      if ds.isEmpty then false
      else
        match r2.drop ds.length with
        | [] => true
        | '.' :: r3 => decide (r3 ≠ [] ∧ r3.all Char.isDigit)
        | _ => false

/-- The tail of `handleUserInput`: local `tree`/`deku` hooks, then forwarding
to the agent endpoint. -/
def localHooks (input : String) : List Act :=
  if treeHookMatch input then [.localTree]
  else if dekuHookMatch input then [.localDeku]
  else [.forwardLLM]

/-- Chain order of the both-intents branch:
`idxTree < idxDeku ? ['tree','deku'] : ['deku','tree']`
(`true` stands for tree). -/
def chainOrder (input : String) : List Bool :=
  if treeKeyIdx input < dekuKeyIdx input then [true, false]
  else [false, true]

/-- Embedding of `handleUserInput(input)` from `src/chat/index.ts`, as the list of actions
it performs on the user's input (the agent-reply handling after forwarding is
outside this model). -/
def handleUserInput (decode : String → Option GrovePlan) (input : String) :
    List Act :=
  let lower := lowerChars input.data
  if lower = "exit".data then [.exitCmd]
  else
    let explicit := findExplicitCommands input
    if explicit.isEmpty then
      if wantsTree input && wantsDeku input then
        (chainOrder input).flatMap fun isTree =>
          if isTree then treeBatch input else dekuBatch input
      else if wantsTree input then treeBatch input
      else if wantsDeku input then dekuBatch input
      else if wantsTree input || wantsDeku input then
        -- the source's "simple chain" branch; unreachable because the two
        -- preceding branches return first, kept for fidelity
        let order : List Bool :=
          if 0 ≤ treeKeyIdx input ∧ 0 ≤ dekuKeyIdx input then
            if treeKeyIdx input < dekuKeyIdx input then [true, false]
            else [false, true]
          else if 0 ≤ treeKeyIdx input then [true]
          else if 0 ≤ dekuKeyIdx input then [false]
          else []
        if order.isEmpty then localHooks input
        else order.map fun isTree =>
          if isTree then Act.nlTree none none else Act.nlDeku none none
      else localHooks input
    else explicit.flatMap (execExplicit decode)

/-- Whether an action is an explicit-command execution. -/
def isExplicitAct : Act → Bool
  | .exTree _ _ _ => true
  | .exDeku => true
  | _ => false

/-- Whether an action is a natural-language candidate execution. -/
def isNL : Act → Bool
  | .nlTree _ _ => true
  | .nlDeku _ _ => true
  | _ => false

/-- The previous character at scan offset `n`, given the character preceding
the scan start. -/
def posPrev (prev : Option Char) (cs : List Char) : Nat → Option Char
  | 0 => prev
  | n + 1 => cs[n]?

/-- One stored row of the `deku_nuts` table (`id TEXT PRIMARY KEY`). -/
structure DekuRow where
  id : String
  base : Option Int
  properties : String
deriving DecidableEq

/-- The parsed JSON body of a `POST /api/deku-nuts` request; a missing or
wrongly-typed field is `none` (`typeof body.id === 'string'`,
`Number.isFinite(body.base)`). -/
structure DekuBody where
  id : Option String := none
  base : Option Int := none
  properties : Option String := none

/-- The observable outcome of the `POST /api/deku-nuts` handler: the store
afterwards, the `{ok:true}` response flag, and whether `deku_nuts:created`
was broadcast. -/
structure DekuPostResult where
  store : List DekuRow
  ok : Bool
  broadcastDekuCreated : Bool
deriving DecidableEq

/-- Embedding of `INSERT INTO deku_nuts ... ON CONFLICT (id) DO NOTHING`. -/
def dekuStoreInsert (store : List DekuRow) (row : DekuRow) : List DekuRow :=
  if store.any (fun r => r.id == row.id) then store else store ++ [row]

/-- The `POST /api/deku-nuts` handler of `src/index.ts`: insert only when a
truthy string `id` is present, always answer `{ok:true}` and always broadcast
`deku_nuts:created`. -/
def postDekuNuts (store : List DekuRow) (body : DekuBody) : DekuPostResult :=
  match body.id with
  | some i =>
    if i = "" then { store := store, ok := true, broadcastDekuCreated := true }
    else
      { store := dekuStoreInsert store
          { id := i, base := body.base, properties := body.properties.getD ("{}") }
        ok := true
        broadcastDekuCreated := true }
  | none => { store := store, ok := true, broadcastDekuCreated := true }

/-- The process-wide preferences state of `src/index.ts`.  `textSize` is a
JavaScript number; it is modelled as a rational because the handler's
`Math.max(12, Math.min(22, ...))` clamp involves no rounding. -/
structure Preferences where
  magic : Bool
  theme : String
  textSize : ℚ
deriving DecidableEq

/-- The initial preferences value `{magic: true, theme: 'dark', textSize: 16}`. -/
def initialPreferences : Preferences :=
  { magic := true, theme := "dark", textSize := 16 }

/-- The parsed JSON body of a `POST /api/prefs` request; a missing or
wrongly-typed field (`typeof body.magic === 'boolean'`, string `theme`,
`Number.isFinite(body.textSize)`) is `none`. -/
structure PrefsBody where
  magic : Option Bool := none
  theme : Option String := none
  textSize : Option ℚ := none

/-- The `POST /api/prefs` handler of `src/index.ts`: each valid field updates
its preference, `theme` only when it is exactly `light` or `dark`, `textSize`
clamped into `[12, 22]`. -/
def applyPrefsUpdate (p : Preferences) (b : PrefsBody) : Preferences :=
  let p1 :=
    match b.magic with
    | some m => { p with magic := m }
    | none => p
  let p2 :=
    match b.theme with
    | some t => if t = "light" ∨ t = "dark" then { p1 with theme := t } else p1
    | none => p1
  match b.textSize with
  | some v => { p2 with textSize := max 12 (min 22 v) }
  | none => p2

/-- The preferences state invariant claimed by the data model: `theme` is
`dark` or `light` and `textSize` lies in `[12, 22]`. -/
def PrefsInv (p : Preferences) : Prop :=
  (p.theme = "dark" ∨ p.theme = "light") ∧ 12 ≤ p.textSize ∧ p.textSize ≤ 22

/-- The `{name, height}` part of a generation result. -/
structure GenResult where
  name : String
  height : Int
deriving DecidableEq

/-- The character class `[a-z0-9]` with the `i` flag. -/
def isAlnumCh (c : Char) : Bool :=
  c.isDigit || ('a' ≤ c && c ≤ 'z') || ('A' ≤ c && c ≤ 'Z')

/-- Embedding of `s.replace(/[^a-z0-9]+/gi, " ")`: each maximal run of non-alphanumeric
characters becomes a single space (`inRun` tracks being inside such a run). -/
def collapseNonAlnum : Bool → List Char → List Char
  | _, [] => []
  | inRun, c :: cs =>
    if isAlnumCh c then c :: collapseNonAlnum false cs
    else if inRun then collapseNonAlnum true cs
    else ' ' :: collapseNonAlnum true cs

/-- The `fallback()` closure of `generateTreeViaOpenAI`, as a function of the
seed's textual content (`JSON.stringify(seed)` resp. `String(seed ?? "")`). -/
def fallbackTree (seedText : String) : GenResult :=
  let base0 := trimChars (collapseNonAlnum false seedText.data)
  let base := if base0.isEmpty then "mystic".data else base0
  let w := base.takeWhile (fun c => c ≠ ' ')
  let first := if w.isEmpty then "mystic".data else w
  { name := String.mk (first ++ (" tree").data)
    height := max 3 (min 60 ((base.length % 50 : Int) + 5)) }

/-- Embedding of `generateTreeViaOpenAI(seed)` from `src/index.ts`.  `magic` is
`preferences.magic`, `apiKey` the configured credential, and `net` the
network oracle standing for the OpenAI round trip (`none` covers every
failure caught by the handler: abort, non-ok status, malformed JSON). -/
def generateTreeViaOpenAI (magic : Bool) (apiKey : Option String)
    (net : String → Option GenResult) (seedText : String) : GenResult :=
  if magic = false then fallbackTree seedText
  else
    match apiKey with
    | none => fallbackTree seedText
    | some _ =>
      match net seedText with
      | none => fallbackTree seedText
      | some g => g

/-- One entry of the world-tree stimulus library. -/
structure LibEntry where
  type : String
  text : String
deriving DecidableEq

/-- The synthetic user message persisted by a scheduler tick, with its
metadata fields. -/
structure SchedMessage where
  role : String
  text : String
  source : String
  category : String
  exotic : Bool
  sent : Bool
  nudge : Nat
deriving DecidableEq

/-- A command-log entry emitted by a scheduler tick. -/
structure SchedLog where
  command : String
  category : String
  nudge : Nat
deriving DecidableEq

/-- The observable outcome of one scheduler tick, up to the forwarding call:
the persisted message, the log entries written before any reply handling, and
the text forwarded to the agent (if any). -/
structure TickResult where
  message : SchedMessage
  logs : List SchedLog
  forward : Option String
deriving DecidableEq

/-- The embellishing suffix appended on exotic ticks. -/
def nudgeSuffix : String := "\n\nenhance this with magic"

/-- One tick of the stimulus `setInterval` callback in `src/index.ts`.
`item` is the picked library line, `exotic` the `Math.random() < 1/20` draw,
`nudge` the tick counter. -/
def schedulerTick (item : LibEntry) (exotic : Bool) (nudge : Nat) : TickResult :=
  let baseText := item.text
  let text := if exotic then baseText ++ nudgeSuffix else baseText
  let isCommand :=
    List.isPrefixOf ("COMMAND:").data baseText.data || item.type == "worldbuilding"
  let shouldSend := isCommand || exotic
  { message :=
      { role := "user", text := text, source := "scheduler"
        category := item.type, exotic := exotic, sent := shouldSend
        nudge := nudge }
    logs :=
      if shouldSend then [{ command := "nudge_send", category := item.type, nudge := nudge }]
      else [{ command := "nudge_skip", category := item.type, nudge := nudge }]
    forward := if shouldSend then some text else none }

/-! ## Helper lemmas about the scanners -/

theorem lit_eq_append {w : List Char} :
    ∀ {cs r : List Char}, lit w cs = some r → cs = w ++ r := by
  induction w with
  | nil =>
    intro cs r h
    simp only [lit, Option.some.injEq] at h
    simp [h]
  | cons p ps ih =>
    intro cs r h
    cases cs with
    | nil => simp [lit] at h
    | cons c cs' =>
      simp only [lit] at h
      split at h
      · rename_i hc
        simp [hc, ih h]
      · simp at h

theorem lit_isSuffix {w cs r : List Char} (h : lit w cs = some r) : r <:+ cs := by
  rw [lit_eq_append h]
  exact List.suffix_append w r

theorem altLit_isSuffix :
    ∀ {ws : List (List Char)} {cs r : List Char}, altLit ws cs = some r → r <:+ cs := by
  intro ws
  induction ws with
  | nil => intro cs r h; simp [altLit] at h
  | cons w ws ih =>
    intro cs r h
    simp only [altLit] at h
    split at h
    · rename_i r' hr
      injection h with h
      subst h
      exact lit_isSuffix hr
    · exact ih h

theorem ws1_isSuffix : ∀ {cs r : List Char}, ws1 cs = some r → r <:+ cs := by
  intro cs r h
  cases cs with
  | nil => simp [ws1] at h
  | cons c cs' =>
    simp only [ws1] at h
    split at h
    · injection h with h
      subst h
      exact (List.dropWhile_suffix isJsSpace).trans (List.suffix_cons c cs')
    · simp at h

theorem articleOpt_isSuffix (cs : List Char) : articleOpt cs <:+ cs := by
  unfold articleOpt
  split
  · split
    · exact (List.dropWhile_suffix isJsSpace).trans
        ((List.suffix_cons _ _).trans (List.suffix_cons _ _))
    · exact List.suffix_refl _
  · exact List.suffix_refl _

theorem searchAuxB_isSome_here {p : Option Char → List Char → Bool}
    {prev : Option Char} {cs : List Char} (h : p prev cs = true) :
    (searchAuxB p prev cs).isSome = true := by
  cases cs <;> simp [searchAuxB, h]

theorem searchAuxB_isSome_cons {p : Option Char → List Char → Bool}
    {c : Char} {cs : List Char} (prev : Option Char)
    (h : (searchAuxB p (some c) cs).isSome = true) :
    (searchAuxB p prev (c :: cs)).isSome = true := by
  by_cases hp : p prev (c :: cs) = true
  · simp [searchAuxB, hp]
  · simp [searchAuxB, hp, h]

theorem searchAuxB_isSome_of_suffix (q : List Char → Bool) :
    ∀ {cs r : List Char}, r <:+ cs → q r = true →
      ∀ prev, (searchAuxB (fun _ t => q t) prev cs).isSome = true := by
  intro cs
  induction cs with
  | nil =>
    intro r hsuf hq prev
    obtain rfl := List.suffix_nil.mp hsuf
    exact searchAuxB_isSome_here hq
  | cons c cs ih =>
    intro r hsuf hq prev
    rcases List.suffix_cons_iff.mp hsuf with rfl | hsuf'
    · exact searchAuxB_isSome_here hq
    · exact searchAuxB_isSome_cons prev (ih hsuf' hq (some c))

theorem searchAuxB_some_matches {p : Option Char → List Char → Bool} :
    ∀ {cs : List Char} {prev : Option Char} {n : Nat},
      searchAuxB p prev cs = some n → p (posPrev prev cs n) (cs.drop n) = true := by
  intro cs
  induction cs with
  | nil =>
    intro prev n h
    simp only [searchAuxB] at h
    split at h
    · rename_i hp
      injection h with h
      subst h
      simpa [posPrev] using hp
    · simp at h
  | cons c cs ih =>
    intro prev n h
    simp only [searchAuxB] at h
    split at h
    · rename_i hp
      injection h with h
      subst h
      simpa [posPrev] using hp
    · rcases Option.map_eq_some'.mp h with ⟨m, hm, rfl⟩
      have hrec := ih hm
      have hpp : posPrev prev (c :: cs) (m + 1) = posPrev (some c) cs m := by
        cases m with
        | zero => simp [posPrev]
        | succ k => simp [posPrev]
      simpa [hpp, List.drop_succ_cons] using hrec

/-! ## Helper lemmas about the pipeline -/

theorem execExplicit_isExplicit (decode : String → Option GrovePlan)
    (cmd : ExplicitCmd) : ∀ a ∈ execExplicit decode cmd, isExplicitAct a = true := by
  intro a ha
  cases cmd with
  | mk kind action payload =>
    cases kind with
    | deku =>
      simp only [execExplicit, List.mem_singleton] at ha
      subst ha
      rfl
    | tree =>
      simp only [execExplicit] at ha
      split at ha
      · simp only [List.mem_map] at ha
        obtain ⟨i, _, rfl⟩ := ha
        rfl
      · simp only [List.mem_singleton] at ha
        subst ha
        rfl

theorem execExplicit_not_nl (decode : String → Option GrovePlan)
    (cmd : ExplicitCmd) : ∀ a ∈ execExplicit decode cmd, isNL a = false := by
  intro a ha
  cases cmd with
  | mk kind action payload =>
    cases kind with
    | deku =>
      simp only [execExplicit, List.mem_singleton] at ha
      subst ha
      rfl
    | tree =>
      simp only [execExplicit] at ha
      split at ha
      · simp only [List.mem_map] at ha
        obtain ⟨i, _, rfl⟩ := ha
        rfl
      · simp only [List.mem_singleton] at ha
        subst ha
        rfl

theorem localHooks_not_nl (s : String) : ∀ a ∈ localHooks s, isNL a = false := by
  intro a ha
  unfold localHooks at ha
  split at ha
  · simp only [List.mem_singleton] at ha
    subst ha
    rfl
  · split at ha
    · simp only [List.mem_singleton] at ha
      subst ha
      rfl
    · simp only [List.mem_singleton] at ha
      subst ha
      rfl

/-! ## C1 -/

/-- Claim C1 (code bug): the spec and the code's own comments promise that
`"make N trees"` produces N tree creations with index/total metadata, but
`wantsTree "make 3 trees"` is `false` — the verb-noun regex only allows an
optional article between the verb and the noun, so the digits break the
match and the quantity path is unreachable for exactly these inputs.  The
count extractor itself returns 3, yet the pipeline performs no local tree
creation at all and forwards the text to the agent; a plain `"make a tree"`
does produce the single creation. -/
theorem c1_counted_trees_code_bug :
    countTrees ("make 3 trees") = 3 ∧
    wantsTree ("make 3 trees") = false ∧
    handleUserInput (fun _ => none) ("make 3 trees") = [Act.forwardLLM] ∧
    handleUserInput (fun _ => none) ("make a tree") =
      [Act.nlTree (some 1) (some 1)] := by
  decide

/-! ## C2 -/

/-- Claim C2, counterexample: `"do not plant a tree"` has a negation phrase
immediately preceding the creation verb `plant`, yet the extractor still
produces a tree candidate and the pipeline performs the creation — the
negation pattern only covers the verbs `make|create|generate|produce|spawn`,
not `plant|grow|seed|sprout|raise`. -/
theorem c2_counterexample :
    wantsTree ("do not plant a tree") = true ∧
    handleUserInput (fun _ => none) ("do not plant a tree") =
      [Act.nlTree (some 1) (some 1)] := by
  decide

/-- Claim C2 as amended: for every text in which a negation phrase
(`don't|do not|never|no`) immediately precedes one of the five verbs
`make|create|generate|produce|spawn` — anywhere in the text, not only at the
matched intent phrase — both extractors reject the text and the pipeline
produces no natural-language candidate action of either kind. -/
theorem c2_amended (s : String)
    (h : negationPresent (lowerChars s.data) = true) :
    wantsTree s = false ∧ wantsDeku s = false ∧
    ∀ (decode : String → Option GrovePlan) (a : Act),
      a ∈ handleUserInput decode s → isNL a = false := by
  have ht : wantsTree s = false := by
    unfold wantsTree wantsTreeL
    simp [h]
  have hd : wantsDeku s = false := by
    unfold wantsDeku wantsDekuL
    simp [h]
  refine ⟨ht, hd, ?_⟩
  intro decode a ha
  simp only [handleUserInput, ht, hd, Bool.false_and, Bool.false_or,
    Bool.false_eq_true, if_false] at ha
  split at ha
  · simp only [List.mem_singleton] at ha
    subst ha
    rfl
  · split at ha
    · exact localHooks_not_nl s a ha
    · rcases List.mem_flatMap.mp ha with ⟨cmd, _, hmem⟩
      exact execExplicit_not_nl decode cmd a hmem

/-- Witness for C2's amended theorem at the concrete input
`"do not make a tree"`. -/
theorem c2_amended_witness :
    negationPresent (lowerChars ("do not make a tree").data) = true ∧
    wantsTree ("do not make a tree") = false :=
  ⟨by decide, (c2_amended ("do not make a tree") (by decide)).1⟩

/-! ## C5 -/

/-- Claim C5: grove/forest plan expansion follows the first-matching-branch
rule and never errors.  The two concrete examples of the spec hold (grouped
`per_type` expansion, round-robin `count` expansion), the default branch
emits one seed per listed type or a single `mystic` seed, and for every plan
the expansion is nonempty, has the branch-predicted length, and only emits
listed (or default) species. -/
theorem c5_grove_expansion :
    expandGrovePlan { tree_types := some ["oak", "pine"], per_type := some 2 } =
      [⟨"oak", none, none⟩, ⟨"oak", none, none⟩,
       ⟨"pine", none, none⟩, ⟨"pine", none, none⟩] ∧
    expandGrovePlan { species := some "oak", count := some 3 } =
      [⟨"oak", none, none⟩, ⟨"oak", none, none⟩, ⟨"oak", none, none⟩] ∧
    expandGrovePlan { tree_types := some ["oak", "pine"] } =
      [⟨"oak", none, none⟩, ⟨"pine", none, none⟩] ∧
    expandGrovePlan {} = [⟨"mystic", none, none⟩] ∧
    ∀ plan : GrovePlan,
      expandGrovePlan plan ≠ [] ∧
      (expandGrovePlan plan).length = grovePlanLen plan ∧
      ∀ sd ∈ expandGrovePlan plan, sd.species ∈ typesSafeOf plan := by
  refine ⟨by decide, by decide, by decide, by decide, ?_⟩
  intro plan
  have hts : typesSafeOf plan ≠ [] := by
    unfold typesSafeOf
    split
    · simp
    · rename_i hh
      exact fun hc => hh (by simp [hc])
  have htspos : 0 < (typesSafeOf plan).length := List.length_pos.mpr hts
  have hlen : (expandGrovePlan plan).length = grovePlanLen plan := by
    unfold expandGrovePlan grovePlanLen
    split
    · -- per_type branch
      rw [List.length_flatMap]
      induction typesSafeOf plan with
      | nil => simp
      | cons t ts ih =>
        simp only [List.map_cons, List.sum_cons, ih, Function.comp_apply,
          List.length_replicate, List.length_cons]
        ring
    · split
      · simp
      · split
        · rename_i hpt htot hemp
          simp [typesSafeOf, hemp]
        · rename_i hpt htot hemp
          simp [typesSafeOf, hemp]
  refine ⟨?_, hlen, ?_⟩
  · -- nonempty
    intro hnil
    have h0 : grovePlanLen plan = 0 := by rw [← hlen, hnil]; rfl
    unfold grovePlanLen at h0
    split at h0
    · rename_i hpt
      have : 0 < (effPerType plan).toNat := by omega
      have := Nat.mul_pos htspos this
      omega
    · split at h0
      · rename_i hpt htot
        omega
      · split at h0
        · omega
        · rename_i hpt htot hemp
          have : 0 < (typesOf plan).length :=
            List.length_pos.mpr (by simpa [List.isEmpty_iff] using hemp)
          omega
  · -- species membership
    intro sd hsd
    unfold expandGrovePlan at hsd
    split at hsd
    · rcases List.mem_flatMap.mp hsd with ⟨t, htmem, hrep⟩
      obtain rfl := List.eq_of_mem_replicate hrep
      simpa [mkSeed] using htmem
    · split at hsd
      · rcases List.mem_map.mp hsd with ⟨i, hi, rfl⟩
        have hlt : i % (typesSafeOf plan).length < (typesSafeOf plan).length :=
          Nat.mod_lt i htspos
        show (typesSafeOf plan).getD (i % (typesSafeOf plan).length) "mystic"
          ∈ typesSafeOf plan
        rw [List.getD_eq_getElem _ _ hlt]
        exact List.getElem_mem hlt
      · split at hsd
        · have hsub := List.take_subset 1 ((typesSafeOf plan).map (mkSeed plan))
          rcases List.mem_map.mp (hsub hsd) with ⟨t, htmem, rfl⟩
          simpa [mkSeed] using htmem
        · rcases List.mem_map.mp hsd with ⟨t, htmem, rfl⟩
          simpa [mkSeed] using htmem

/-- Witness for C5's universal part at the empty plan. -/
theorem c5_witness : expandGrovePlan {} ≠ [] :=
  (c5_grove_expansion.2.2.2.2 {}).1

/-! ## C6 -/

/-- Claim C6: deku-nut insertion is idempotent on `id`.  Submitting the same
id twice, starting from any store not containing it, leaves exactly one row
with that id, the second submission still reports `{ok:true}`, and the store
is unchanged by the second submission. -/
theorem postDekuNuts_ok (store : List DekuRow) (body : DekuBody) :
    (postDekuNuts store body).ok = true := by
  rcases body with ⟨bid, bb, bp⟩
  cases bid with
  | none => rfl
  | some i =>
    by_cases h : i = "" <;> simp [postDekuNuts, h]

theorem c6_deku_idempotent (store : List DekuRow) (body : DekuBody) (i : String)
    (hid : body.id = some i) (hne : i ≠ "")
    (hfresh : ∀ r ∈ store, r.id ≠ i) :
    ((postDekuNuts (postDekuNuts store body).store body).store.filter
        (fun r => r.id == i)).length = 1 ∧
    (postDekuNuts (postDekuNuts store body).store body).ok = true ∧
    (postDekuNuts (postDekuNuts store body).store body).store =
      (postDekuNuts store body).store := by
  have hany : store.any (fun r => r.id == i) = false := by
    simp only [List.any_eq_false, beq_iff_eq]
    exact hfresh
  have h1 : (postDekuNuts store body).store =
      store ++ [{ id := i, base := body.base
                  properties := body.properties.getD ("{}") }] := by
    simp only [postDekuNuts, hid, if_neg hne, dekuStoreInsert, hany,
      Bool.false_eq_true, if_false]
  have hrow : ((store ++
      [({ id := i, base := body.base,
          properties := body.properties.getD ("{}") } : DekuRow)]).any
        (fun r => r.id == i)) = true := by
    simp
  have h2 : (postDekuNuts (postDekuNuts store body).store body).store =
      (postDekuNuts store body).store := by
    rw [h1]
    simp only [postDekuNuts, hid, if_neg hne, dekuStoreInsert, hrow, if_true]
  refine ⟨?_, postDekuNuts_ok _ _, h2⟩
  rw [h2, h1, List.filter_append]
  have hnilf : store.filter (fun r => r.id == i) = [] := by
    simp only [List.filter_eq_nil_iff, beq_iff_eq]
    exact hfresh
  rw [hnilf]
  simp

/-- Witness for C6 at the empty store and a concrete id. -/
theorem c6_witness :
    ((postDekuNuts (postDekuNuts [] { id := some ("n1") }).store
        { id := some ("n1") }).store.filter (fun r => r.id == "n1")).length = 1 :=
  (c6_deku_idempotent [] { id := some ("n1") } ("n1") rfl (by decide)
    (by simp)).1

/-! ## C7 -/

/-- Claim C7: with the magic switch off, tree generation never consults the
network oracle or the credential and equals the deterministic fallback of the
seed text alone — two calls with identical seed content agree regardless of
the credential and of the network's behaviour. -/
theorem c7_fallback_deterministic (k1 k2 : Option String)
    (n1 n2 : String → Option GenResult) (seed : String) :
    generateTreeViaOpenAI false k1 n1 seed = fallbackTree seed ∧
    generateTreeViaOpenAI false k1 n1 seed = generateTreeViaOpenAI false k2 n2 seed := by
  constructor <;> rfl

/-! ## C8 -/

/-- Claim C8, counterexample: a preferences update carrying
`textSize = 15.5` (a finite non-integer) is accepted and clamps to itself, so
the stored `textSize` is not an integer — refuting the data model's
`textSize: integer in [12,22]`. -/
theorem c8_counterexample :
    (applyPrefsUpdate initialPreferences { textSize := some ((31 : ℚ)/2) }).textSize
      = (31 : ℚ)/2 ∧
    ¬ ∃ n : ℤ,
      (applyPrefsUpdate initialPreferences { textSize := some ((31 : ℚ)/2) }).textSize
        = (n : ℚ) := by
  have hv : (applyPrefsUpdate initialPreferences
      { textSize := some ((31 : ℚ)/2) }).textSize = (31 : ℚ)/2 := by
    show max 12 (min 22 ((31 : ℚ)/2)) = (31 : ℚ)/2
    rw [min_eq_right (by norm_num), max_eq_right (by norm_num)]
  refine ⟨hv, ?_⟩
  rintro ⟨n, hn⟩
  rw [hv] at hn
  have h2 : (31 : ℚ) = 2 * (n : ℚ) := by linarith
  have h3 : (31 : ℤ) = 2 * n := by exact_mod_cast h2
  omega

/-- Claim C8 as amended: after every sequence of preferences updates from the
initial state, `theme` is `dark` or `light` and `textSize` is a number in
`[12, 22]` (not necessarily an integer: the handler clamps without rounding);
updates carrying invalid or missing fields leave the corresponding fields
unchanged. -/
theorem applyPrefsUpdate_magic (p : Preferences) (b : PrefsBody) :
    (applyPrefsUpdate p b).magic = b.magic.getD p.magic := by
  rcases b with ⟨bm, bt, bs⟩
  cases bm <;> cases bt <;> cases bs <;>
    simp only [applyPrefsUpdate, Option.getD_some, Option.getD_none] <;>
    try rfl
  all_goals split <;> rfl

theorem applyPrefsUpdate_theme (p : Preferences) (b : PrefsBody) :
    (applyPrefsUpdate p b).theme =
      (match b.theme with
       | some t => if t = "light" ∨ t = "dark" then t else p.theme
       | none => p.theme) := by
  rcases b with ⟨bm, bt, bs⟩
  cases bm <;> cases bt <;> cases bs <;>
    simp only [applyPrefsUpdate] <;>
    try rfl
  all_goals split <;> rfl

theorem applyPrefsUpdate_textSize (p : Preferences) (b : PrefsBody) :
    (applyPrefsUpdate p b).textSize =
      (match b.textSize with
       | some v => max 12 (min 22 v)
       | none => p.textSize) := by
  rcases b with ⟨bm, bt, bs⟩
  cases bm <;> cases bt <;> cases bs <;>
    simp only [applyPrefsUpdate] <;>
    try rfl
  all_goals split <;> rfl

theorem c8_amended :
    (∀ bodies : List PrefsBody,
      PrefsInv (bodies.foldl applyPrefsUpdate initialPreferences)) ∧
    (∀ (p : Preferences) (b : PrefsBody),
      (b.theme = none → (applyPrefsUpdate p b).theme = p.theme) ∧
      (∀ t, b.theme = some t → t ≠ "light" → t ≠ "dark" →
        (applyPrefsUpdate p b).theme = p.theme) ∧
      (b.textSize = none → (applyPrefsUpdate p b).textSize = p.textSize) ∧
      (b.magic = none → (applyPrefsUpdate p b).magic = p.magic)) := by
  have hstep : ∀ (p : Preferences) (b : PrefsBody),
      PrefsInv p → PrefsInv (applyPrefsUpdate p b) := by
    intro p b hp
    obtain ⟨hth, h12, h22⟩ := hp
    refine ⟨?_, ?_, ?_⟩
    · rw [applyPrefsUpdate_theme]
      cases ht : b.theme with
      | none => exact hth
      | some t =>
        dsimp only
        split
        · rename_i hv
          rcases hv with rfl | rfl
          · exact Or.inr rfl
          · exact Or.inl rfl
        · exact hth
    · rw [applyPrefsUpdate_textSize]
      cases hts : b.textSize with
      | none => exact h12
      | some v => exact le_max_left _ _
    · rw [applyPrefsUpdate_textSize]
      cases hts : b.textSize with
      | none => exact h22
      | some v => exact max_le (by norm_num) (min_le_left _ _)
  constructor
  · have hfold : ∀ (bodies : List PrefsBody) (p : Preferences),
        PrefsInv p → PrefsInv (bodies.foldl applyPrefsUpdate p) := by
      intro bodies
      induction bodies with
      | nil => intro p hp; exact hp
      | cons b bs ih => intro p hp; exact ih _ (hstep p b hp)
    intro bodies
    refine hfold bodies initialPreferences ?_
    exact ⟨Or.inl rfl, by norm_num [initialPreferences],
      by norm_num [initialPreferences]⟩
  · intro p b
    refine ⟨?_, ?_, ?_, ?_⟩
    · intro hth
      rw [applyPrefsUpdate_theme, hth]
    · intro t hth ht1 ht2
      have hcond : ¬(t = "light" ∨ t = "dark") := by
        rintro (rfl | rfl)
        · exact ht1 rfl
        · exact ht2 rfl
      rw [applyPrefsUpdate_theme, hth]
      dsimp only
      rw [if_neg hcond]
    · intro hts
      rw [applyPrefsUpdate_textSize, hts]
    · intro hm
      rw [applyPrefsUpdate_magic, hm]
      rfl


/-- Witness for C8's amended theorem: a single valid theme update keeps the
invariant. -/
theorem c8_amended_witness :
    PrefsInv (([{ theme := some ("light") }] : List PrefsBody).foldl
      applyPrefsUpdate initialPreferences) :=
  c8_amended.1 _

/-! ## C9 -/

/-- Claim C9: every scheduler tick persists the picked library line as a
synthetic user message tagged with `source=scheduler`, its category and the
sent flag; the line is forwarded iff it is command-shaped or of
worldbuilding category or the exotic draw fired (in which case the
embellishing suffix is appended to the forwarded text, and also to the
persisted copy); every non-forwarded tick emits exactly a `nudge_skip`
command-log entry. -/
theorem c9_scheduler_tick (item : LibEntry) (exotic : Bool) (nudge : Nat) :
    (schedulerTick item exotic nudge).message.role = "user" ∧
    (schedulerTick item exotic nudge).message.source = "scheduler" ∧
    (schedulerTick item exotic nudge).message.category = item.type ∧
    (schedulerTick item exotic nudge).message.nudge = nudge ∧
    (schedulerTick item exotic nudge).message.text =
      (if exotic then item.text ++ nudgeSuffix else item.text) ∧
    (schedulerTick item exotic nudge).message.sent =
      (schedulerTick item exotic nudge).forward.isSome ∧
    ((schedulerTick item exotic nudge).forward.isSome = true ↔
      (List.isPrefixOf ("COMMAND:").data item.text.data = true ∨
        item.type = "worldbuilding" ∨ exotic = true)) ∧
    (exotic = true →
      (schedulerTick item exotic nudge).forward = some (item.text ++ nudgeSuffix)) ∧
    ((schedulerTick item exotic nudge).forward = none →
      (schedulerTick item exotic nudge).logs =
        [{ command := "nudge_skip", category := item.type, nudge := nudge }]) := by
  by_cases hw : item.type = "worldbuilding"
  · have hwb : (item.type == "worldbuilding") = true := by
      simp [hw]
    cases hc : List.isPrefixOf ("COMMAND:").data item.text.data <;>
      cases exotic <;>
      simp [schedulerTick, hc, hwb, hw]
  · have hwb : (item.type == "worldbuilding") = false := by
      simp [hw]
    cases hc : List.isPrefixOf ("COMMAND:").data item.text.data <;>
      cases exotic <;>
      simp [schedulerTick, hc, hwb, hw]


/-- Witness for C9 at a concrete non-forwarded tick. -/
theorem c9_witness :
    (schedulerTick { type := "lore", text := "hello" } false 1).logs =
      [{ command := "nudge_skip", category := "lore", nudge := 1 }] :=
  (c9_scheduler_tick { type := "lore", text := "hello" } false 1).2.2.2.2.2.2.2.2
    (by decide)

/-! ## C10 -/

/-- Claim C10: a deku-nut POST whose body lacks a string id inserts nothing,
still answers `{ok:true}`, and still broadcasts `deku_nuts:created`. -/
theorem c10_missing_id (store : List DekuRow) (body : DekuBody)
    (h : body.id = none) :
    postDekuNuts store body =
      { store := store, ok := true, broadcastDekuCreated := true } := by
  unfold postDekuNuts
  rw [h]

/-- Witness for C10 at the empty store and the empty body. -/
theorem c10_witness :
    postDekuNuts [] {} =
      { store := [], ok := true, broadcastDekuCreated := true } :=
  c10_missing_id [] {} rfl

/-! ## Keyword-occurrence lemmas for the chain resolver -/

theorem treeKey_of_altLit {r : List Char}
    (h : (altLit ["tree".data, "sapling".data] r).isSome = true) :
    treeKeyAt r = true := by
  unfold treeKeyAt
  cases h1 : lit ("tree".data) r with
  | some v => simp [h1]
  | none =>
    cases h2 : lit ("sapling".data) r with
    | some v => simp [h2]
    | none => simp [altLit, h1, h2] at h

theorem nounAt_finds_noun {verbs nouns : List (List Char)} {cs : List Char}
    (h : nounAt verbs nouns cs = true) :
    ∃ r, r <:+ cs ∧ (altLit nouns r).isSome = true := by
  unfold nounAt at h
  cases hv : altLit verbs cs with
  | none => simp [hv] at h
  | some r1 =>
    simp only [hv] at h
    cases hw : ws1 r1 with
    | none => simp [hw] at h
    | some r2 =>
      simp only [hw] at h
      cases hn : altLit nouns (articleOpt r2) with
      | none => simp [hn] at h
      | some r3 =>
        refine ⟨articleOpt r2, ?_, by simp [hn]⟩
        exact (articleOpt_isSuffix r2).trans
          ((ws1_isSuffix hw).trans (altLit_isSuffix hv))

theorem plantSaplingAt_finds_key {prev : Option Char} {cs : List Char}
    (h : plantSaplingAt prev cs = true) :
    ∃ r, r <:+ cs ∧ treeKeyAt r = true := by
  unfold plantSaplingAt at h
  rw [Bool.and_eq_true] at h
  rcases h with ⟨_, h2⟩
  cases hp : lit ("plant".data) cs with
  | none => simp [hp] at h2
  | some r1 =>
    simp only [hp] at h2
    cases hw : ws1 r1 with
    | none => simp [hw] at h2
    | some r2 =>
      simp only [hw] at h2
      cases hsap : lit ("sapling".data) (articleOpt r2) with
      | none => simp [hsap] at h2
      | some r3 =>
        refine ⟨articleOpt r2, ?_, ?_⟩
        · exact (articleOpt_isSuffix r2).trans
            ((ws1_isSuffix hw).trans (lit_isSuffix hp))
        · unfold treeKeyAt
          simp [hsap]

theorem wantsTreeL_key {t : List Char} (h : wantsTreeL t = true) :
    (searchAuxB (fun _ cs => treeKeyAt cs) none t).isSome = true := by
  unfold wantsTreeL at h
  split at h
  · simp at h
  · rw [Bool.or_eq_true] at h
    rcases h with h12 | h3
    · rw [Bool.or_eq_true] at h12
      rcases h12 with hverb | hstart
      · unfold testB at hverb
        rcases Option.isSome_iff_exists.mp hverb with ⟨n, hn⟩
        have hmatch : treeNounAt (t.drop n) = true := searchAuxB_some_matches hn
        rcases nounAt_finds_noun
            (show nounAt verbs10W ["tree".data, "sapling".data] (t.drop n) = true
              from hmatch) with ⟨r, hrsuf, halt⟩
        exact searchAuxB_isSome_of_suffix treeKeyAt
          (hrsuf.trans (List.drop_suffix n t)) (treeKey_of_altLit halt) none
      · unfold treeStart at hstart
        cases hl : lit ("tree".data) t with
        | none => simp [hl] at hstart
        | some r =>
          have hkey : treeKeyAt t = true := by
            unfold treeKeyAt
            simp [hl]
          exact searchAuxB_isSome_here hkey
    · unfold testB at h3
      rcases Option.isSome_iff_exists.mp h3 with ⟨n, hn⟩
      have hmatch := searchAuxB_some_matches hn
      rcases plantSaplingAt_finds_key hmatch with ⟨r, hrsuf, hkey⟩
      exact searchAuxB_isSome_of_suffix treeKeyAt
        (hrsuf.trans (List.drop_suffix n t)) hkey none

theorem treeKeyIdx_nonneg {s : String} (h : wantsTree s = true) :
    0 ≤ treeKeyIdx s := by
  have hsome := wantsTreeL_key
    (show wantsTreeL (lowerChars s.data) = true from h)
  rcases Option.isSome_iff_exists.mp hsome with ⟨n, hn⟩
  simp only [treeKeyIdx, jsSearch, hn]
  exact Int.natCast_nonneg n

theorem treeKeyIdx_ne_dekuKeyIdx {s : String} (h : wantsTree s = true) :
    treeKeyIdx s ≠ dekuKeyIdx s := by
  intro he
  have hsome := wantsTreeL_key
    (show wantsTreeL (lowerChars s.data) = true from h)
  rcases Option.isSome_iff_exists.mp hsome with ⟨n, hn⟩
  unfold treeKeyIdx jsSearch at he
  unfold dekuKeyIdx jsSearch at he
  simp only [hn] at he
  cases hd : searchAuxB dekuWordAt none (lowerChars s.data) with
  | none =>
    simp only [hd] at he
    omega
  | some m =>
    simp only [hd] at he
    have hm : n = m := by exact_mod_cast he
    subst hm
    have k1 : treeKeyAt ((lowerChars s.data).drop n) = true :=
      searchAuxB_some_matches hn
    have k2 := searchAuxB_some_matches hd
    unfold treeKeyAt at k1
    unfold dekuWordAt at k2
    rw [Bool.and_eq_true] at k2
    rcases k2 with ⟨_, k2b⟩
    cases hdk : lit ("deku".data) ((lowerChars s.data).drop n) with
    | none => simp [hdk] at k2b
    | some rd =>
      have hde := lit_eq_append hdk
      have hd' : ((lowerChars s.data).drop n).head? = some 'd' := by
        rw [hde]
        rfl
      rw [Bool.or_eq_true] at k1
      rcases k1 with k1a | k1b
      · rcases Option.isSome_iff_exists.mp k1a with ⟨rt, hrt⟩
        have ht' : ((lowerChars s.data).drop n).head? = some 't' := by
          rw [lit_eq_append hrt]
          rfl
        rw [ht'] at hd'
        simp at hd'
      · rcases Option.isSome_iff_exists.mp k1b with ⟨rt, hrt⟩
        have ht' : ((lowerChars s.data).drop n).head? = some 's' := by
          rw [lit_eq_append hrt]
          rfl
        rw [ht'] at hd'
        simp at hd'

/-! ## Explicit commands exclude the exit input -/

theorem parseCommandLine_min_length {line : List Char} {cmd : ExplicitCmd}
    (h : parseCommandLine line = some cmd) : 7 ≤ (trimChars line).length := by
  simp only [parseCommandLine] at h
  cases hlit : lit ("command".data) (lowerChars (trimChars line)) with
  | none => simp [hlit] at h
  | some r1 =>
    have happ := lit_eq_append hlit
    have hlen := congrArg List.length happ
    simp [lowerChars] at hlen
    omega

theorem splitOnNl_piece_length :
    ∀ (cs : List Char), ∀ piece ∈ splitOnNl cs, piece.length ≤ cs.length := by
  intro cs
  induction cs with
  | nil =>
    intro piece hp
    simp only [splitOnNl, List.mem_singleton] at hp
    simp [hp]
  | cons c cs ih =>
    intro piece hp
    simp only [splitOnNl] at hp
    split at hp
    · rcases List.mem_cons.mp hp with rfl | hp'
      · simp
      · exact (ih piece hp').trans (by simp)
    · cases hsp : splitOnNl cs with
      | nil =>
        rw [hsp] at hp
        simp only [List.mem_singleton] at hp
        subst hp
        simp
      | cons hh tt =>
        rw [hsp] at hp
        rcases List.mem_cons.mp hp with rfl | hp'
        · have hmem : hh ∈ splitOnNl cs := by
            rw [hsp]
            exact List.mem_cons_self _ _
          have := ih hh hmem
          simp only [List.length_cons]
          omega
        · have hmem : piece ∈ splitOnNl cs := by
            rw [hsp]
            exact List.mem_cons_of_mem _ hp'
          exact (ih piece hmem).trans (by simp)

theorem trimChars_length_le (cs : List Char) : (trimChars cs).length ≤ cs.length := by
  unfold trimChars
  have h1 : (cs.dropWhile isJsSpace).length ≤ cs.length :=
    (List.dropWhile_suffix _).length_le
  have h2 : ((cs.dropWhile isJsSpace).reverse.dropWhile isJsSpace).length ≤
      (cs.dropWhile isJsSpace).reverse.length :=
    (List.dropWhile_suffix _).length_le
  simp only [List.length_reverse] at h2 ⊢
  omega

theorem findExplicitCommands_ne_nil_length {s : String}
    (h : findExplicitCommands s ≠ []) : 7 ≤ s.data.length := by
  unfold findExplicitCommands at h
  have hex : ∃ line ∈ splitOnNl s.data, parseCommandLine line ≠ none := by
    by_contra hc
    push_neg at hc
    exact h (List.filterMap_eq_nil_iff.mpr hc)
  rcases hex with ⟨line, hmem, hones⟩
  cases hp : parseCommandLine line with
  | none => exact absurd hp hones
  | some cmd =>
    have h7 := parseCommandLine_min_length hp
    have hle := trimChars_length_le line
    have hple := splitOnNl_piece_length s.data line hmem
    omega

theorem exit_no_commands {s : String} (he : lowerChars s.data = "exit".data) :
    findExplicitCommands s = [] := by
  by_contra h
  have h7 := findExplicitCommands_ne_nil_length h
  have h4 := congrArg List.length he
  simp [lowerChars] at h4
  have hsl : s.length = s.data.length := rfl
  omega

/-! ## C3 -/

/-- Claim C3: when at least one explicit COMMAND line is found, the pipeline
executes exactly the explicit commands in line order and every produced
action is an explicit-command execution — natural-language detection is
skipped entirely. -/
theorem c3_explicit_precedence (decode : String → Option GrovePlan)
    (input : String) (h : findExplicitCommands input ≠ []) :
    handleUserInput decode input =
      (findExplicitCommands input).flatMap (execExplicit decode) ∧
    ∀ a ∈ handleUserInput decode input, isExplicitAct a = true := by
  have hexit : lowerChars input.data ≠ "exit".data := fun he =>
    h (exit_no_commands he)
  have hne : (findExplicitCommands input).isEmpty = false :=
    List.isEmpty_eq_false.mpr h
  have heq : handleUserInput decode input =
      (findExplicitCommands input).flatMap (execExplicit decode) := by
    simp only [handleUserInput]
    rw [if_neg hexit, hne, if_neg Bool.false_ne_true]
  refine ⟨heq, ?_⟩
  intro a ha
  rw [heq] at ha
  rcases List.mem_flatMap.mp ha with ⟨cmd, _, hmem⟩
  exact execExplicit_isExplicit decode cmd a hmem

/-- Witness for C3: the spec's example input with an explicit `COMMAND: TREE`
line plus an unrelated natural-language deku phrase yields only the explicit
tree action, even though `wantsDeku` holds for the text. -/
theorem c3_witness :
    handleUserInput (fun _ => none) ("COMMAND: TREE\nmake a deku") =
      [Act.exTree none none none] ∧
    wantsDeku ("COMMAND: TREE\nmake a deku") = true := by
  have h := c3_explicit_precedence (fun _ => none)
    ("COMMAND: TREE\nmake a deku") (by decide)
  exact ⟨h.1.trans (by decide), by decide⟩

/-! ## C4 -/

/-- Claim C4, counterexample: `"make a teku then plant a tree"` matches both
intents (deku via `teku`), the word `deku` never occurs (`search` yields -1)
while a tree keyword occurs at index 25, yet the pipeline executes the deku
action first — refuting "the kind whose keyword occurs earlier runs first"
as stated. -/
theorem c4_counterexample :
    handleUserInput (fun _ => none) ("make a teku then plant a tree") =
      [Act.nlDeku (some 1) (some 1), Act.nlTree (some 1) (some 1)] ∧
    dekuKeyIdx ("make a teku then plant a tree") = -1 ∧
    treeKeyIdx ("make a teku then plant a tree") = 25 ∧
    wantsTree ("make a teku then plant a tree") = true ∧
    wantsDeku ("make a teku then plant a tree") = true := by
  decide

/-- Claim C4 as amended: when both intents match (and no explicit command
shortcuts the input), execution order is decided by comparing the JavaScript
search indices, where an absent keyword counts as `-1`: the strictly smaller
index runs first.  The tree index is always nonnegative and the two indices
are never equal, so when both keywords occur this is exactly
first-occurrence order and ties are impossible; when the deku intent was
matched via `teku` and the word `deku` is absent, deku runs first. -/
theorem c4_amended (decode : String → Option GrovePlan) (input : String)
    (h1 : wantsTree input = true) (h2 : wantsDeku input = true)
    (h4 : findExplicitCommands input = []) :
    0 ≤ treeKeyIdx input ∧ treeKeyIdx input ≠ dekuKeyIdx input ∧
    handleUserInput decode input =
      (if treeKeyIdx input < dekuKeyIdx input
       then treeBatch input ++ dekuBatch input
       else dekuBatch input ++ treeBatch input) := by
  refine ⟨treeKeyIdx_nonneg h1, treeKeyIdx_ne_dekuKeyIdx h1, ?_⟩
  have hexit : lowerChars input.data ≠ "exit".data := by
    intro he
    have hfalse : wantsTree input = false := by
      show wantsTreeL (lowerChars input.data) = false
      rw [he]
      decide
    rw [h1] at hfalse
    exact absurd hfalse (by simp)
  have hne : (findExplicitCommands input).isEmpty = true := by simp [h4]
  simp only [handleUserInput]
  rw [if_neg hexit, hne, if_pos rfl, h1, h2]
  rw [Bool.and_self, if_pos rfl]
  unfold chainOrder
  by_cases hlt : treeKeyIdx input < dekuKeyIdx input
  · rw [if_pos hlt, if_pos hlt]
    simp
  · rw [if_neg hlt, if_neg hlt]
    simp

/-- Witness for C4's amended theorem at the spec's example
`"plant a sapling then make a deku"`: the tree keyword occurs first, so the
tree batch runs before the deku batch. -/
theorem c4_witness :
    handleUserInput (fun _ => none) ("plant a sapling then make a deku") =
      [Act.nlTree (some 1) (some 1), Act.nlDeku (some 1) (some 1)] := by
  have h := c4_amended (fun _ => none) ("plant a sapling then make a deku")
    (by decide) (by decide) (by decide)
  exact h.2.2.trans (by decide)

end Eliza
